import Mathlib

/-!
Verification of the topology builder in
`lesson-1-Designing_Multi-Agent_Architectures_with_LangGraph/examples/maa.py`
(`AgentArchitectureDesigner`).

The builder constructs, for a given architecture kind and agent count, an
abstract graph: a list of node identifiers, an association list mapping each
node that carries a `Command[Literal[...]]` annotation to its declared list of
possible dynamic destinations, and a list of fixed edges.  The start and end
markers are the LangGraph sentinels `"__start__"` and `"__end__"`.
-/

namespace MAA

/-- LangGraph START sentinel. -/
def STARTM : String := "__start__"

/-- LangGraph END sentinel. -/
def ENDM : String := "__end__"

/-- Node identifier for the i-th agent, from the f-string `f"l{i}_agent"`. -/
def agentName (i : Nat) : String := "l" ++ Nat.repr i ++ "_agent"

/-- The list `[f"l{i}_agent" for i in range(1, n + 1)]`. -/
def agentNames (n : Nat) : List String := (List.range' 1 n).map agentName

/-- Abstract result of `workflow.compile()`: node identifiers in insertion
order, dynamic possible-destination declarations (one entry per node that was
added via `_dynamic_stub`), and fixed edges (including the ones touching the
start and end markers). -/
structure Graph where
  nodes : List String
  dyn : List (String × List String)
  fixedEdges : List (String × String)
deriving DecidableEq

/-- Model of `_dynamic_stub(name, choices)`: the declared destination set is
`choices + ([END] if END not in choices else [])`. -/
def dynamicStub (name : String) (choices : List String) : String × List String :=
  (name, choices ++ (if ENDM ∈ choices then [] else [ENDM]))

/-- Python `kind.lower()`: lower-case every character (the same function as
core `String.toLower`, written by structural recursion over the character
list so that it evaluates inside the kernel). -/
def strLower (s : String) : String := ⟨s.data.map Char.toLower⟩

/-- Error raised by `build` (Python `ValueError`); the spec calls it
`InvalidArgument`. -/
inductive BuildError where
  | invalidArgument (msg : String)
deriving DecidableEq

deriving instance DecidableEq for Except

/-- Model of `_build_pipeline(n)`: nodes `l1..ln` as no-ops (no dynamic annotation),
fixed edges `START → l1`, `l_i → l_{i+1}` (from `zip(names, names[1:])`),
`ln → END`.  `build` guarantees `n ≥ 1`, so the `headD`/`getLastD` defaults
are never used. -/
def buildPipeline (n : Nat) : Graph :=
  let names := agentNames n
  { nodes := names
    dyn := []
    fixedEdges := (STARTM, names.headD "") :: (names.zip names.tail ++ [(names.getLastD "", ENDM)]) }

/-- Model of `_build_network(n)`: every node is a dynamic stub whose choices are
`[nm for nm in names] + [END]` (self-loops included), and there is a single
fixed entry edge `START → names[0]`. -/
def buildNetwork (n : Nat) : Graph :=
  let names := agentNames n
  { nodes := names
    dyn := names.map (fun name => dynamicStub name (names ++ [ENDM]))
    fixedEdges := [(STARTM, names.headD "")] }

/-- Model of `_build_supervisor(n)`: the node `"supervisor"` routes to the `n - 1`
workers `[f"l{i}_agent" for i in range(1, n)]` or END; each worker routes back
to the supervisor or END; single fixed edge `START → supervisor`.  The `n < 2`
guard lives in `build`. -/
def buildSupervisor (n : Nat) : Graph :=
  let supervisor := "supervisor"
  let workers := (List.range' 1 (n - 1)).map agentName
  { nodes := supervisor :: workers
    dyn := dynamicStub supervisor (workers ++ [ENDM]) ::
      workers.map (fun w => dynamicStub w [supervisor, ENDM])
    fixedEdges := [(STARTM, supervisor)] }

/-- The parent map of `_build_hierarchical`: for `i in range(1, len(names))`,
`parents[names[i]] = names[(i - 1) // 2]`. -/
def hierParents (n : Nat) : List (String × String) :=
  (List.range' 1 (n - 1)).map
    (fun i => ((agentNames n).getD i "", (agentNames n).getD ((i - 1) / 2) ""))

/-- The children lookup of `_build_hierarchical`: `children[parent]` collects,
in insertion order, every child whose parent entry is `parent`. -/
def hierChildren (n : Nat) (parent : String) : List String :=
  ((hierParents n).filter (fun p => p.2 == parent)).map Prod.fst

/-- Model of `parents.get(nm)`: the parent of node `nm`, if any. -/
def hierParentOf (n : Nat) (nm : String) : Option String :=
  ((hierParents n).find? (fun p => p.1 == nm)).map Prod.snd

/-- The loop body of `_build_hierarchical`: a non-leaf node gets choices
`children + [END]`, a leaf gets `([parent] if parent else []) + [END]`. -/
def hierNodeStub (n : Nat) (nm : String) : String × List String :=
  if hierChildren n nm ≠ [] then
    dynamicStub nm (hierChildren n nm ++ [ENDM])
  else
    dynamicStub nm ((hierParentOf n nm).toList ++ [ENDM])

/-- Model of `_build_hierarchical(n)`: every node is added via `hierNodeStub`; single
fixed edge `START → root` where the root is `names[0]`. -/
def buildHierarchical (n : Nat) : Graph :=
  let names := agentNames n
  { nodes := names
    dyn := names.map (hierNodeStub n)
    fixedEdges := [(STARTM, names.headD "")] }

/-- Model of `AgentArchitectureDesigner.build(kind, n_agents)`: lower-cases the kind,
rejects `n_agents < 1`, dispatches on the kind (the supervisor builder
additionally rejects `n_agents < 2`), and rejects unknown kinds. -/
def build (kind : String) (nAgents : Int) : Except BuildError Graph :=
  let k := strLower kind
  if nAgents < 1 then
    .error (.invalidArgument "n_agents must be >= 1")
  else if k = "pipeline" then
    .ok (buildPipeline nAgents.toNat)
  else if k = "network" then
    .ok (buildNetwork nAgents.toNat)
  else if k = "supervisor" then
    if nAgents < 2 then
      .error (.invalidArgument "Supervisor needs at least 2 nodes (1 supervisor + >=1 worker).")
    else
      .ok (buildSupervisor nAgents.toNat)
  else if k = "hierarchical" then
    .ok (buildHierarchical nAgents.toNat)
  else
    .error (.invalidArgument ("Unknown architecture kind: " ++ k))

/-- Dynamic-destination lookup in a built graph (dict-style: first entry
whose key matches). -/
def dynLookup (g : Graph) (nm : String) : Option (List String) :=
  (g.dyn.find? (fun p => p.1 == nm)).map Prod.snd

/-- One step along the built graph: a fixed edge, or a dynamic
possible-destination declared by the source node. -/
def Graph.step (g : Graph) (a b : String) : Prop :=
  (a, b) ∈ g.fixedEdges ∨ ∃ p ∈ g.dyn, p.1 = a ∧ b ∈ p.2

/-- Reachability from the start marker along fixed edges and declared dynamic
destinations. -/
def Graph.reachable (g : Graph) (nm : String) : Prop :=
  Relation.ReflTransGen g.step STARTM nm


/-! ### Injectivity of the generated node identifiers -/

/-- Little-endian decimal digit characters of `n`: the purely structural
counterpart of the fuel-driven `Nat.toDigitsCore`. -/
def natDigitsRev (n : Nat) : List Char :=
  if h : n / 10 = 0 then [Nat.digitChar (n % 10)]
  else Nat.digitChar (n % 10) :: natDigitsRev (n / 10)
termination_by n
decreasing_by
  exact Nat.div_lt_self (Nat.pos_of_ne_zero (fun hn => h (by simp [hn]))) (by norm_num)

theorem natDigitsRev_eq (n : Nat) :
    natDigitsRev n =
      Nat.digitChar (n % 10) :: (if n / 10 = 0 then [] else natDigitsRev (n / 10)) := by
  rw [natDigitsRev]
  split <;> simp_all

theorem natDigitsRev_ne_nil (n : Nat) : natDigitsRev n ≠ [] := by
  rw [natDigitsRev_eq]
  simp

theorem toDigitsCore_eq_natDigitsRev (fuel n : Nat) (ds : List Char) (hf : n < fuel) :
    Nat.toDigitsCore 10 fuel n ds = (natDigitsRev n).reverse ++ ds := by
  induction fuel generalizing n ds with
  | zero => omega
  | succ fuel ih =>
    simp only [Nat.toDigitsCore]
    by_cases h : n / 10 = 0
    · rw [if_pos h, natDigitsRev_eq n, if_pos h]
      simp
    · have hn : n ≠ 0 := fun e => h (by simp [e])
      have h10 : n / 10 < n := Nat.div_lt_self (Nat.pos_of_ne_zero hn) (by norm_num)
      have hlt : n / 10 < fuel := by omega
      rw [if_neg h, ih (n / 10) _ hlt, natDigitsRev_eq n, if_neg h]
      simp

theorem digitChar_inj_lt_ten : ∀ a < 10, ∀ b < 10,
    Nat.digitChar a = Nat.digitChar b → a = b := by decide

theorem natDigitsRev_inj (m : Nat) : ∀ n, natDigitsRev m = natDigitsRev n → m = n := by
  induction m using Nat.strong_induction_on with
  | _ m ih =>
    intro n h
    rw [natDigitsRev_eq m, natDigitsRev_eq n] at h
    have hd : m % 10 = n % 10 :=
      digitChar_inj_lt_ten _ (Nat.mod_lt _ (by norm_num)) _ (Nat.mod_lt _ (by norm_num))
        (List.cons.inj h).1
    have ht := (List.cons.inj h).2
    by_cases hm : m / 10 = 0 <;> by_cases hn : n / 10 = 0
    · omega
    · rw [if_pos hm, if_neg hn] at ht
      exact absurd ht.symm (natDigitsRev_ne_nil _)
    · rw [if_neg hm, if_pos hn] at ht
      exact absurd ht (natDigitsRev_ne_nil _)
    · rw [if_neg hm, if_neg hn] at ht
      have hdiv : m / 10 = n / 10 := ih (m / 10) (by omega) _ ht
      omega

theorem nat_repr_injective : Function.Injective Nat.repr := by
  intro m n h
  have h1 : Nat.toDigits 10 m = Nat.toDigits 10 n := congrArg String.data h
  rw [Nat.toDigits, Nat.toDigits, toDigitsCore_eq_natDigitsRev _ _ _ (Nat.lt_succ_self m),
    toDigitsCore_eq_natDigitsRev _ _ _ (Nat.lt_succ_self n)] at h1
  simp at h1
  exact natDigitsRev_inj _ _ h1

theorem agentName_injective : Function.Injective agentName := by
  intro a b h
  have hd := congrArg String.data h
  simp only [agentName, String.data_append] at hd
  have h2 : (Nat.repr a).data = (Nat.repr b).data := by simpa using hd
  exact nat_repr_injective (String.ext h2)
/-! ### Basic facts about the generated structures -/

theorem endm_mem_dynamicStub (nm : String) (cs : List String) :
    ENDM ∈ (dynamicStub nm cs).2 := by
  unfold dynamicStub
  by_cases h : ENDM ∈ cs <;> simp [h]

theorem dynamicStub_of_endm_mem (nm : String) (cs : List String) (h : ENDM ∈ cs) :
    dynamicStub nm cs = (nm, cs) := by
  simp [dynamicStub, h]

theorem dynamicStub_fst (nm : String) (cs : List String) : (dynamicStub nm cs).1 = nm := rfl

theorem agentNames_length (n : Nat) : (agentNames n).length = n := by
  simp [agentNames]

theorem agentNames_nodup (n : Nat) : (agentNames n).Nodup :=
  (List.nodup_range' _ _).map agentName_injective

theorem mem_agentNames (n : Nat) (s : String) :
    s ∈ agentNames n ↔ ∃ i, 1 ≤ i ∧ i ≤ n ∧ s = agentName i := by
  simp only [agentNames, List.mem_map, List.mem_range']
  constructor
  · rintro ⟨i, ⟨j, hj, rfl⟩, rfl⟩
    exact ⟨1 + 1 * j, by omega, by omega, rfl⟩
  · rintro ⟨i, h1, h2, rfl⟩
    exact ⟨i, ⟨i - 1, by omega, by omega⟩, rfl⟩

theorem agentName_mem_agentNames (n i : Nat) (h1 : 1 ≤ i) (h2 : i ≤ n) :
    agentName i ∈ agentNames n := by
  rw [mem_agentNames]
  exact ⟨i, h1, h2, rfl⟩

theorem agentNames_headD (n : Nat) (h : 1 ≤ n) : (agentNames n).headD "" = agentName 1 := by
  obtain ⟨m, rfl⟩ := Nat.exists_eq_add_of_le' h
  simp [agentNames, List.range'_succ]

theorem agentNames_getLastD (n : Nat) (h : 1 ≤ n) :
    (agentNames n).getLastD "" = agentName n := by
  obtain ⟨m, rfl⟩ := Nat.exists_eq_add_of_le' h
  rw [agentNames, List.range'_concat]
  have h1 : 1 + 1 * m = m + 1 := by omega
  simp [h1, Nat.add_comm]

theorem agentNames_getD (n i : Nat) (h : i < n) :
    (agentNames n).getD i "" = agentName (i + 1) := by
  rw [agentNames, List.getD_eq_getElem?_getD, List.getElem?_map, List.getElem?_range' _ _ h]
  simp [Nat.add_comm]

/-! ### Evaluating `build` at the four recognised kinds -/

theorem build_eval_pipeline (kind : String) (hk : strLower kind = "pipeline")
    (n : Int) (h : ¬n < 1) : build kind n = .ok (buildPipeline n.toNat) := by
  simp only [build, hk]
  rw [if_neg h]
  simp

theorem build_eval_network (kind : String) (hk : strLower kind = "network")
    (n : Int) (h : ¬n < 1) : build kind n = .ok (buildNetwork n.toNat) := by
  have d1 : ("network" : String) ≠ "pipeline" := by decide
  simp only [build, hk]
  rw [if_neg h, if_neg d1]
  simp

theorem build_eval_supervisor (kind : String) (hk : strLower kind = "supervisor")
    (n : Int) (h : ¬n < 1) (h2 : ¬n < 2) : build kind n = .ok (buildSupervisor n.toNat) := by
  have d1 : ("supervisor" : String) ≠ "pipeline" := by decide
  have d2 : ("supervisor" : String) ≠ "network" := by decide
  simp only [build, hk]
  rw [if_neg h, if_neg d1, if_neg d2]
  simp [h2]

theorem build_eval_supervisor_small (kind : String) (hk : strLower kind = "supervisor")
    (n : Int) (h : ¬n < 1) (h2 : n < 2) :
    build kind n =
      .error (.invalidArgument
        "Supervisor needs at least 2 nodes (1 supervisor + >=1 worker).") := by
  have d1 : ("supervisor" : String) ≠ "pipeline" := by decide
  have d2 : ("supervisor" : String) ≠ "network" := by decide
  simp only [build, hk]
  rw [if_neg h, if_neg d1, if_neg d2]
  simp [h2]

theorem build_eval_hierarchical (kind : String) (hk : strLower kind = "hierarchical")
    (n : Int) (h : ¬n < 1) : build kind n = .ok (buildHierarchical n.toNat) := by
  have d1 : ("hierarchical" : String) ≠ "pipeline" := by decide
  have d2 : ("hierarchical" : String) ≠ "network" := by decide
  have d3 : ("hierarchical" : String) ≠ "supervisor" := by decide
  simp only [build, hk]
  rw [if_neg h, if_neg d1, if_neg d2, if_neg d3]
  simp

theorem build_eval_small (kind : String) (n : Int) (h : n < 1) :
    build kind n = .error (.invalidArgument "n_agents must be >= 1") := by
  simp only [build]
  rw [if_pos h]

theorem build_eval_unknown (kind : String)
    (h1 : strLower kind ≠ "pipeline") (h2 : strLower kind ≠ "network")
    (h3 : strLower kind ≠ "supervisor") (h4 : strLower kind ≠ "hierarchical")
    (n : Int) (h : ¬n < 1) :
    build kind n =
      .error (.invalidArgument ("Unknown architecture kind: " ++ strLower kind)) := by
  simp only [build]
  rw [if_neg h, if_neg h1, if_neg h2, if_neg h3, if_neg h4]

/-! ### The pipeline chain -/

theorem map_range'_zip_tail {α : Type} (f : Nat → α) :
    ∀ (len s : Nat),
      ((List.range' s len).map f).zip (((List.range' s len).map f).tail) =
        (List.range' s (len - 1)).map fun i => (f i, f (i + 1)) := by
  intro len
  induction len with
  | zero => intro s; simp
  | succ len ih =>
    intro s
    cases len with
    | zero => simp [List.range'_succ]
    | succ m =>
      have e1 : List.range' s (m + 1 + 1) = s :: List.range' (s + 1) (m + 1) :=
        List.range'_succ _ _ _
      have e2 : List.range' (s + 1) (m + 1) = (s + 1) :: List.range' (s + 2) m := by
        simpa using List.range'_succ (s + 1) m 1
      have ih' := ih (s + 1)
      rw [e2] at ih'
      simp only [List.map_cons, List.tail_cons] at ih'
      rw [e1]
      simp only [List.map_cons, List.tail_cons, e2, List.zip_cons_cons, Nat.succ_sub_one]
      rw [ih']
      have e3 : List.range' s (m + 1) = s :: List.range' (s + 1) m := List.range'_succ _ _ _
      rw [e3]
      simp

theorem buildPipeline_eq_spec (n : Nat) (h : 1 ≤ n) :
    buildPipeline n =
      { nodes := agentNames n
        dyn := []
        fixedEdges := (STARTM, agentName 1) ::
          ((List.range' 1 (n - 1)).map (fun i => (agentName i, agentName (i + 1))) ++
            [(agentName n, ENDM)]) } := by
  simp only [buildPipeline]
  rw [agentNames_headD n h, agentNames_getLastD n h]
  rw [agentNames, map_range'_zip_tail]

/-! ### The hierarchical parent and children maps -/

theorem hierParents_eq (n : Nat) :
    hierParents n =
      (List.range' 1 (n - 1)).map
        (fun i => (agentName (i + 1), agentName ((i - 1) / 2 + 1))) := by
  unfold hierParents
  apply List.map_congr_left
  intro i hi
  rw [List.mem_range'] at hi
  obtain ⟨j, hj, rfl⟩ := hi
  have e : 1 + 1 * j = j + 1 := by omega
  rw [e]
  rw [agentNames_getD n (j + 1) (by omega), agentNames_getD n ((j + 1 - 1) / 2) (by omega)]

theorem filter_range'_two (a : Nat) :
    ∀ (len s : Nat) (p : Nat → Bool),
      (∀ i, s ≤ i → i < s + len → (p i = true ↔ (i = a ∨ i = a + 1))) →
      (List.range' s len).filter p =
        (if s ≤ a ∧ a < s + len then [a] else []) ++
          (if s ≤ a + 1 ∧ a + 1 < s + len then [a + 1] else []) := by
  intro len
  induction len with
  | zero =>
    intro s p _
    rw [if_neg (by omega : ¬(s ≤ a ∧ a < s + 0)),
      if_neg (by omega : ¬(s ≤ a + 1 ∧ a + 1 < s + 0))]
    rfl
  | succ len ih =>
    intro s p hp
    have hp' : ∀ i, s + 1 ≤ i → i < s + 1 + len → (p i = true ↔ (i = a ∨ i = a + 1)) :=
      fun i h1 h2 => hp i (by omega) (by omega)
    have hps := hp s (Nat.le_refl s) (by omega)
    rw [List.range'_succ, List.filter_cons, ih (s + 1) p hp']
    by_cases hsa : s = a
    · subst hsa
      rw [if_pos (hps.mpr (Or.inl rfl)),
        if_neg (by omega : ¬(s + 1 ≤ s ∧ s < s + 1 + len)),
        if_pos (by omega : s ≤ s ∧ s < s + (len + 1))]
      have e2 : (s + 1 ≤ s + 1 ∧ s + 1 < s + 1 + len) ↔
          (s ≤ s + 1 ∧ s + 1 < s + (len + 1)) := by omega
      rw [if_congr e2 rfl rfl]
      simp
    by_cases hsa' : s = a + 1
    · rw [if_pos (hps.mpr (Or.inr hsa')),
        if_neg (by omega : ¬(s + 1 ≤ a ∧ a < s + 1 + len)),
        if_neg (by omega : ¬(s + 1 ≤ a + 1 ∧ a + 1 < s + 1 + len)),
        if_neg (by omega : ¬(s ≤ a ∧ a < s + (len + 1))),
        if_pos (by omega : s ≤ a + 1 ∧ a + 1 < s + (len + 1)), hsa']
      rfl
    · have hcase : ¬p s = true := fun hc => by
        rcases hps.mp hc with h | h
        · exact hsa h
        · exact hsa' h
      rw [if_neg hcase]
      have e1 : (s + 1 ≤ a ∧ a < s + 1 + len) ↔ (s ≤ a ∧ a < s + (len + 1)) := by omega
      have e2 : (s + 1 ≤ a + 1 ∧ a + 1 < s + 1 + len) ↔
          (s ≤ a + 1 ∧ a + 1 < s + (len + 1)) := by omega
      rw [if_congr e1 rfl rfl, if_congr e2 rfl rfl]

/-- The children of node `j` (0-indexed) under the `(i - 1) / 2` parent rule,
as the spec describes them: positions `2j + 1` and `2j + 2` when they exist. -/
def hierChildrenSpec (n j : Nat) : List String :=
  (if 2 * j + 1 < n then [agentName (2 * j + 2)] else []) ++
    (if 2 * j + 2 < n then [agentName (2 * j + 3)] else [])

theorem hierChildren_eq (n j : Nat) :
    hierChildren n (agentName (j + 1)) = hierChildrenSpec n j := by
  unfold hierChildren
  rw [hierParents_eq, List.filter_map, List.map_map]
  have hpred : ∀ i, 1 ≤ i → i < 1 + (n - 1) →
      (((fun p => p.2 == agentName (j + 1)) ∘
          fun i => (agentName (i + 1), agentName ((i - 1) / 2 + 1))) i = true ↔
        (i = 2 * j + 1 ∨ i = 2 * j + 1 + 1)) := by
    intro i h1 _
    simp only [Function.comp_apply, beq_iff_eq]
    constructor
    · intro he
      have := agentName_injective he
      omega
    · intro hc
      have e : (i - 1) / 2 = j := by omega
      rw [e]
  rw [filter_range'_two (2 * j + 1) (n - 1) 1 _ hpred]
  unfold hierChildrenSpec
  by_cases c2 : 2 * j + 2 < n
  · rw [if_pos (by omega : 1 ≤ 2 * j + 1 ∧ 2 * j + 1 < 1 + (n - 1)),
      if_pos (by omega : 1 ≤ 2 * j + 1 + 1 ∧ 2 * j + 1 + 1 < 1 + (n - 1)),
      if_pos (by omega : 2 * j + 1 < n), if_pos c2]
    simp only [List.map_append, List.map_cons, List.map_nil, Function.comp_apply]
  by_cases c1 : 2 * j + 1 < n
  · rw [if_pos (by omega : 1 ≤ 2 * j + 1 ∧ 2 * j + 1 < 1 + (n - 1)),
      if_neg (by omega : ¬(1 ≤ 2 * j + 1 + 1 ∧ 2 * j + 1 + 1 < 1 + (n - 1))),
      if_pos c1, if_neg c2]
    simp only [List.map_append, List.map_cons, List.map_nil, Function.comp_apply]
  · rw [if_neg (by omega : ¬(1 ≤ 2 * j + 1 ∧ 2 * j + 1 < 1 + (n - 1))),
      if_neg (by omega : ¬(1 ≤ 2 * j + 1 + 1 ∧ 2 * j + 1 + 1 < 1 + (n - 1))),
      if_neg c1, if_neg c2]
    rfl

theorem find?_map_range' {α : Type} (f : Nat → α) (p : α → Bool) (a : Nat) :
    ∀ (len s : Nat),
      (∀ i, s ≤ i → i < s + len → (p (f i) = true ↔ i = a)) →
      ((List.range' s len).map f).find? p =
        if s ≤ a ∧ a < s + len then some (f a) else none := by
  intro len
  induction len with
  | zero =>
    intro s _
    rw [if_neg (by omega : ¬(s ≤ a ∧ a < s + 0))]
    rfl
  | succ len ih =>
    intro s hp
    have hp' : ∀ i, s + 1 ≤ i → i < s + 1 + len → (p (f i) = true ↔ i = a) :=
      fun i h1 h2 => hp i (by omega) (by omega)
    have hps := hp s (Nat.le_refl s) (by omega)
    rw [List.range'_succ, List.map_cons]
    by_cases hcase : p (f s) = true
    · have he : s = a := hps.mp hcase
      subst he
      rw [List.find?_cons_of_pos _ hcase, if_pos (by omega : s ≤ s ∧ s < s + (len + 1))]
    · rw [List.find?_cons_of_neg _ (by simpa using hcase), ih (s + 1) hp']
      have hne : s ≠ a := fun hc => hcase (hps.mpr hc)
      have e1 : (s + 1 ≤ a ∧ a < s + 1 + len) ↔ (s ≤ a ∧ a < s + (len + 1)) := by omega
      rw [if_congr e1 rfl rfl]

theorem hierParentOf_eq (n i : Nat) (h1 : 1 ≤ i) (h2 : i < n) :
    hierParentOf n (agentName (i + 1)) = some (agentName ((i - 1) / 2 + 1)) := by
  unfold hierParentOf
  rw [hierParents_eq]
  rw [find?_map_range' _ _ i (n - 1) 1 ?hp]
  · rw [if_pos (by omega)]
    rfl
  · intro k hk1 hk2
    simp only [beq_iff_eq]
    constructor
    · intro he
      have := agentName_injective he
      omega
    · rintro rfl
      rfl

theorem hierParentOf_root (n : Nat) : hierParentOf n (agentName 1) = none := by
  unfold hierParentOf
  rw [hierParents_eq]
  rw [find?_map_range' _ _ 0 (n - 1) 1 ?hp]
  · rw [if_neg (by omega)]
    rfl
  · intro k hk1 hk2
    simp only [beq_iff_eq]
    constructor
    · intro he
      have := agentName_injective he
      omega
    · omega

theorem hierNodeStub_fst (n : Nat) (nm : String) : (hierNodeStub n nm).1 = nm := by
  unfold hierNodeStub
  split <;> rfl

theorem hierNodeStub_snd (n : Nat) (nm : String) :
    (hierNodeStub n nm).2 =
      if hierChildren n nm ≠ [] then hierChildren n nm ++ [ENDM]
      else (hierParentOf n nm).toList ++ [ENDM] := by
  unfold hierNodeStub
  by_cases hc : hierChildren n nm ≠ []
  · rw [if_pos hc, if_pos hc, dynamicStub_of_endm_mem _ _ (by simp)]
  · rw [if_neg hc, if_neg hc, dynamicStub_of_endm_mem _ _ (by simp)]

theorem dynLookup_map_agentNames (n : Nat) (G : String → String × List String)
    (hG : ∀ nm, (G nm).1 = nm) (j : Nat) (hj : j < n) :
    (((agentNames n).map G).find? (fun p => p.1 == agentName (j + 1))).map Prod.snd =
      some (G (agentName (j + 1))).2 := by
  rw [agentNames, List.map_map]
  rw [find?_map_range' (G ∘ agentName) (fun p => p.1 == agentName (j + 1)) (j + 1) n 1 ?hp]
  · rw [if_pos (by omega)]
    rfl
  · intro i h1 h2
    simp only [Function.comp_apply, hG, beq_iff_eq]
    constructor
    · intro he
      have := agentName_injective he
      omega
    · rintro rfl
      rfl

theorem buildHierarchical_dynLookup (n j : Nat) (hj : j < n) :
    dynLookup (buildHierarchical n) (agentName (j + 1)) =
      some (if hierChildren n (agentName (j + 1)) ≠ [] then
              hierChildren n (agentName (j + 1)) ++ [ENDM]
            else (hierParentOf n (agentName (j + 1))).toList ++ [ENDM]) := by
  unfold dynLookup buildHierarchical
  simp only []
  rw [dynLookup_map_agentNames n (hierNodeStub n) (hierNodeStub_fst n) j hj]
  rw [hierNodeStub_snd]

/-! ### Case analysis of successful builds, and reachability -/

theorem build_ok_cases (kind : String) (n : Int) (g : Graph) (h : build kind n = .ok g) :
    ¬n < 1 ∧
      ((strLower kind = "pipeline" ∧ g = buildPipeline n.toNat) ∨
        (strLower kind = "network" ∧ g = buildNetwork n.toNat) ∨
        (strLower kind = "supervisor" ∧ ¬n < 2 ∧ g = buildSupervisor n.toNat) ∨
        (strLower kind = "hierarchical" ∧ g = buildHierarchical n.toNat)) := by
  by_cases h1 : n < 1
  · rw [build_eval_small kind n h1] at h
    simp at h
  refine ⟨h1, ?_⟩
  by_cases hp : strLower kind = "pipeline"
  · rw [build_eval_pipeline kind hp n h1] at h
    exact Or.inl ⟨hp, (Except.ok.inj h).symm⟩
  by_cases hn : strLower kind = "network"
  · rw [build_eval_network kind hn n h1] at h
    exact Or.inr (Or.inl ⟨hn, (Except.ok.inj h).symm⟩)
  by_cases hs : strLower kind = "supervisor"
  · by_cases h2 : n < 2
    · rw [build_eval_supervisor_small kind hs n h1 h2] at h
      simp at h
    · rw [build_eval_supervisor kind hs n h1 h2] at h
      exact Or.inr (Or.inr (Or.inl ⟨hs, h2, (Except.ok.inj h).symm⟩))
  by_cases hh : strLower kind = "hierarchical"
  · rw [build_eval_hierarchical kind hh n h1] at h
    exact Or.inr (Or.inr (Or.inr ⟨hh, (Except.ok.inj h).symm⟩))
  · rw [build_eval_unknown kind hp hn hs hh n h1] at h
    simp at h

theorem agentName_ne_supervisor (i : Nat) : agentName i ≠ "supervisor" := by
  intro he
  have hd := congrArg String.data he
  simp only [agentName, String.data_append] at hd
  simp at hd

theorem endm_mem_hierNodeStub (n : Nat) (nm : String) : ENDM ∈ (hierNodeStub n nm).2 := by
  unfold hierNodeStub
  split <;> exact endm_mem_dynamicStub _ _

theorem buildPipeline_reachable (n : Nat) (h : 1 ≤ n) :
    ∀ nm ∈ (buildPipeline n).nodes, (buildPipeline n).reachable nm := by
  have hspec := buildPipeline_eq_spec n h
  intro nm hnm
  have hnm' : nm ∈ agentNames n := hnm
  obtain ⟨i, hi1, hi2, rfl⟩ := (mem_agentNames n nm).mp hnm'
  have key : ∀ i, 1 ≤ i → i ≤ n → (buildPipeline n).reachable (agentName i) := by
    intro i
    induction i with
    | zero => omega
    | succ i ih =>
      intro _ hle
      by_cases hi0 : i = 0
      · subst hi0
        refine Relation.ReflTransGen.single (Or.inl ?_)
        rw [hspec]
        exact List.mem_cons_self _ _
      · refine Relation.ReflTransGen.tail (ih (by omega) (by omega)) (Or.inl ?_)
        rw [hspec]
        refine List.mem_cons_of_mem _ (List.mem_append_left _ (List.mem_map.mpr ⟨i, ?_, ?_⟩))
        · exact List.mem_range'.mpr ⟨i - 1, by omega, by omega⟩
        · rfl
  exact key i hi1 hi2

theorem buildNetwork_reachable (n : Nat) (h : 1 ≤ n) :
    ∀ nm ∈ (buildNetwork n).nodes, (buildNetwork n).reachable nm := by
  intro nm hnm
  have hnm' : nm ∈ agentNames n := hnm
  have hstep1 : (buildNetwork n).step STARTM (agentName 1) := by
    refine Or.inl ?_
    have e : (buildNetwork n).fixedEdges = [(STARTM, (agentNames n).headD "")] := rfl
    rw [e, agentNames_headD n h]
    exact List.mem_singleton.mpr rfl
  refine Relation.ReflTransGen.tail (Relation.ReflTransGen.single hstep1) ?_
  refine Or.inr ⟨dynamicStub (agentName 1) (agentNames n ++ [ENDM]), ?_, rfl, ?_⟩
  · exact List.mem_map.mpr ⟨agentName 1, agentName_mem_agentNames n 1 (Nat.le_refl 1) h, rfl⟩
  · rw [dynamicStub_of_endm_mem _ _ (by simp)]
    exact List.mem_append_left _ hnm'

theorem buildSupervisor_reachable (n : Nat) :
    ∀ nm ∈ (buildSupervisor n).nodes, (buildSupervisor n).reachable nm := by
  intro nm hnm
  have hstep1 : (buildSupervisor n).step STARTM "supervisor" :=
    Or.inl (List.mem_singleton.mpr rfl)
  have hnm' : nm ∈ "supervisor" :: (List.range' 1 (n - 1)).map agentName := hnm
  rcases List.mem_cons.mp hnm' with rfl | hw
  · exact Relation.ReflTransGen.single hstep1
  · refine Relation.ReflTransGen.tail (Relation.ReflTransGen.single hstep1) ?_
    refine Or.inr ⟨dynamicStub "supervisor" ((List.range' 1 (n - 1)).map agentName ++ [ENDM]),
      List.mem_cons_self _ _, rfl, ?_⟩
    rw [dynamicStub_of_endm_mem _ _ (by simp)]
    exact List.mem_append_left _ hw

theorem buildHierarchical_reachable (n : Nat) (h : 1 ≤ n) :
    ∀ nm ∈ (buildHierarchical n).nodes, (buildHierarchical n).reachable nm := by
  intro nm hnm
  have hnm' : nm ∈ agentNames n := hnm
  obtain ⟨i, hi1, hi2, rfl⟩ := (mem_agentNames n nm).mp hnm'
  have key : ∀ i, 1 ≤ i → i ≤ n → (buildHierarchical n).reachable (agentName i) := by
    intro i
    induction i using Nat.strong_induction_on with
    | _ i ih =>
      intro hi1 hi2
      by_cases hroot : i = 1
      · subst hroot
        refine Relation.ReflTransGen.single (Or.inl ?_)
        have e : (buildHierarchical n).fixedEdges = [(STARTM, (agentNames n).headD "")] := rfl
        rw [e, agentNames_headD n h]
        exact List.mem_singleton.mpr rfl
      · obtain ⟨j, rfl⟩ : ∃ j, i = j + 2 := ⟨i - 2, by omega⟩
        have hchild : agentName (j + 2) ∈ hierChildren n (agentName (j / 2 + 1)) := by
          rw [hierChildren_eq]
          unfold hierChildrenSpec
          by_cases heven : j = 2 * (j / 2)
          · refine List.mem_append_left _ ?_
            rw [if_pos (by omega : 2 * (j / 2) + 1 < n)]
            have e : 2 * (j / 2) + 2 = j + 2 := by omega
            rw [e]
            exact List.mem_singleton.mpr rfl
          · refine List.mem_append_right _ ?_
            rw [if_pos (by omega : 2 * (j / 2) + 2 < n)]
            have e : 2 * (j / 2) + 3 = j + 2 := by omega
            rw [e]
            exact List.mem_singleton.mpr rfl
        refine Relation.ReflTransGen.tail (ih (j / 2 + 1) (by omega) (by omega) (by omega)) ?_
        refine Or.inr ⟨hierNodeStub n (agentName (j / 2 + 1)), ?_, hierNodeStub_fst n _, ?_⟩
        · exact List.mem_map.mpr
            ⟨agentName (j / 2 + 1), agentName_mem_agentNames n _ (by omega) (by omega), rfl⟩
        · rw [hierNodeStub_snd, if_pos (List.ne_nil_of_mem hchild)]
          exact List.mem_append_left _ hchild
  exact key i hi1 hi2

/-! ### Claim theorems -/

/-- C1: `build(kind, n_agents)` fails with `InvalidArgument` exactly when
`n_agents < 1` (for any kind), or when the kind, compared case-insensitively,
is not one of pipeline/network/supervisor/hierarchical, or when the kind is
supervisor and `n_agents < 2`; for every other input it returns a graph
without error. -/
theorem claim_build_invalidArgument_iff (kind : String) (n : Int) :
    (∃ msg, build kind n = .error (.invalidArgument msg)) ↔
      (n < 1 ∨ strLower kind ∉ ["pipeline", "network", "supervisor", "hierarchical"] ∨
        (strLower kind = "supervisor" ∧ n < 2)) := by
  have dps : ("pipeline" : String) ≠ "supervisor" := by decide
  have dns : ("network" : String) ≠ "supervisor" := by decide
  have dhs : ("hierarchical" : String) ≠ "supervisor" := by decide
  by_cases h1 : n < 1
  · rw [build_eval_small kind n h1]
    simp [h1]
  by_cases hp : strLower kind = "pipeline"
  · rw [build_eval_pipeline kind hp n h1]
    simp [h1, hp, dps]
  by_cases hn : strLower kind = "network"
  · rw [build_eval_network kind hn n h1]
    simp [h1, hn, dns]
  by_cases hs : strLower kind = "supervisor"
  · by_cases h2 : n < 2
    · rw [build_eval_supervisor_small kind hs n h1 h2]
      simp [h1, hs, h2]
    · rw [build_eval_supervisor kind hs n h1 h2]
      simp [h1, hs, h2]
  by_cases hh : strLower kind = "hierarchical"
  · rw [build_eval_hierarchical kind hh n h1]
    simp [h1, hh, dhs]
  · rw [build_eval_unknown kind hp hn hs hh n h1]
    simp [h1, hp, hn, hs, hh]

/-- C2: for every `n ≥ 1`, `build("pipeline", n)` yields the `n` nodes
`l1..ln` with the single fixed chain start → l1 → … → ln → end and no dynamic
destination declarations at all. -/
theorem claim_pipeline_chain (n : Nat) (h : 1 ≤ n) :
    build "pipeline" (n : Int) =
      .ok { nodes := agentNames n
            dyn := []
            fixedEdges := (STARTM, agentName 1) ::
              ((List.range' 1 (n - 1)).map (fun i => (agentName i, agentName (i + 1))) ++
                [(agentName n, ENDM)]) } := by
  rw [build_eval_pipeline "pipeline" (by decide) _ (by omega)]
  simp only [Int.toNat_natCast]
  rw [buildPipeline_eq_spec n h]

/-- C2 witness: the concrete pipeline with three agents. -/
theorem claim_pipeline_chain_witness :
    build "pipeline" ((3 : Nat) : Int) =
      .ok { nodes := ["l1_agent", "l2_agent", "l3_agent"]
            dyn := []
            fixedEdges := [("__start__", "l1_agent"), ("l1_agent", "l2_agent"),
              ("l2_agent", "l3_agent"), ("l3_agent", "__end__")] } := by
  rw [claim_pipeline_chain 3 (by decide)]
  decide

/-- C3: for every `n ≥ 1`, every node of `build("network", n)` declares the
dynamic destination list consisting of all `n` node identifiers (self-loops
included, as the implementation documents) followed by the end marker, hence
of size `n + 1`, and the only fixed edge is start → l1. -/
theorem claim_network_mesh (n : Nat) (h : 1 ≤ n) :
    ∃ g, build "network" (n : Int) = .ok g ∧
      g.nodes = agentNames n ∧
      g.dyn = (agentNames n).map (fun nm => (nm, agentNames n ++ [ENDM])) ∧
      (∀ nm ∈ g.nodes, ∀ ds, (nm, ds) ∈ g.dyn → nm ∈ ds ∧ ENDM ∈ ds ∧ ds.length = n + 1) ∧
      g.fixedEdges = [(STARTM, agentName 1)] := by
  have hdyn : (buildNetwork n).dyn =
      (agentNames n).map (fun nm => (nm, agentNames n ++ [ENDM])) := by
    simp only [buildNetwork]
    exact List.map_congr_left fun nm _ => dynamicStub_of_endm_mem nm _ (by simp)
  refine ⟨buildNetwork n, ?_, rfl, hdyn, ?_, ?_⟩
  · rw [build_eval_network "network" (by decide) _ (by omega)]
    simp
  · intro nm hnm ds hds
    rw [hdyn] at hds
    obtain ⟨x, hx, he⟩ := List.mem_map.mp hds
    obtain ⟨h1, h2⟩ := Prod.ext_iff.mp he
    subst h1
    subst h2
    refine ⟨by simp [buildNetwork] at hnm; simp [hnm], by simp, ?_⟩
    simp [agentNames_length]
  · simp only [buildNetwork]
    rw [agentNames_headD n h]

/-- C3 witness: the concrete network with three agents. -/
theorem claim_network_mesh_witness :
    ∃ g, build "network" ((3 : Nat) : Int) = .ok g ∧
      g.nodes = agentNames 3 ∧
      g.dyn = (agentNames 3).map (fun nm => (nm, agentNames 3 ++ [ENDM])) ∧
      (∀ nm ∈ g.nodes, ∀ ds, (nm, ds) ∈ g.dyn → nm ∈ ds ∧ ENDM ∈ ds ∧ ds.length = 3 + 1) ∧
      g.fixedEdges = [(STARTM, agentName 1)] :=
  claim_network_mesh 3 (by decide)

/-- C4: for every `n ≥ 2`, `build("supervisor", n)` has exactly the node
`supervisor` plus the `n - 1` workers `l1..l(n-1)`; the supervisor's dynamic
destination list is exactly the workers plus end, each worker's is exactly
`[supervisor, end]`, and the only fixed edge is start → supervisor. -/
theorem claim_supervisor_topology (n : Nat) (h : 2 ≤ n) :
    build "supervisor" (n : Int) =
      .ok { nodes := "supervisor" :: (List.range' 1 (n - 1)).map agentName
            dyn := ("supervisor", (List.range' 1 (n - 1)).map agentName ++ [ENDM]) ::
              ((List.range' 1 (n - 1)).map agentName).map (fun w => (w, ["supervisor", ENDM]))
            fixedEdges := [(STARTM, "supervisor")] } := by
  rw [build_eval_supervisor "supervisor" (by decide) _ (by omega) (by omega)]
  simp only [Int.toNat_natCast]
  simp only [buildSupervisor]
  rw [dynamicStub_of_endm_mem _ _ (by simp : ENDM ∈ (List.range' 1 (n - 1)).map agentName ++ [ENDM])]
  rw [List.map_congr_left fun w _ => dynamicStub_of_endm_mem w ["supervisor", ENDM] (by simp)]

/-- C4 witness: the concrete supervisor architecture with three agents. -/
theorem claim_supervisor_topology_witness :
    build "supervisor" ((3 : Nat) : Int) =
      .ok { nodes := ["supervisor", "l1_agent", "l2_agent"]
            dyn := [("supervisor", ["l1_agent", "l2_agent", "__end__"]),
              ("l1_agent", ["supervisor", "__end__"]),
              ("l2_agent", ["supervisor", "__end__"])]
            fixedEdges := [("__start__", "supervisor")] } := by
  rw [claim_supervisor_topology 3 (by decide)]
  decide

/-- C5: for every `n ≥ 1`, `build("hierarchical", n)` assigns each node at
0-indexed position `i > 0` the parent at index `(i - 1) / 2`; every node with
children declares exactly its children plus end, every leaf declares exactly
its parent plus end, in the `n = 1` case the sole node declares only the end
marker, and the only fixed edge is start → root (the first node). -/
theorem claim_hierarchical_topology (n : Nat) (h : 1 ≤ n) :
    ∃ g, build "hierarchical" (n : Int) = .ok g ∧
      g.nodes = agentNames n ∧
      g.fixedEdges = [(STARTM, agentName 1)] ∧
      (∀ i, 1 ≤ i → i < n →
        hierParentOf n (agentName (i + 1)) = some (agentName ((i - 1) / 2 + 1))) ∧
      hierParentOf n (agentName 1) = none ∧
      (∀ j, j < n → hierChildrenSpec n j ≠ [] →
        dynLookup g (agentName (j + 1)) = some (hierChildrenSpec n j ++ [ENDM])) ∧
      (∀ j, 1 ≤ j → j < n → hierChildrenSpec n j = [] →
        dynLookup g (agentName (j + 1)) = some [agentName ((j - 1) / 2 + 1), ENDM]) ∧
      (n = 1 → dynLookup g (agentName 1) = some [ENDM]) := by
  refine ⟨buildHierarchical n, ?_, rfl, ?_, hierParentOf_eq n, hierParentOf_root n, ?_, ?_, ?_⟩
  · rw [build_eval_hierarchical "hierarchical" (by decide) _ (by omega)]
    simp
  · have e : (buildHierarchical n).fixedEdges = [(STARTM, (agentNames n).headD "")] := rfl
    rw [e, agentNames_headD n h]
  · intro j hj hne
    rw [buildHierarchical_dynLookup n j hj, hierChildren_eq, if_pos hne]
  · intro j hj1 hj2 he
    rw [buildHierarchical_dynLookup n j hj2, hierChildren_eq, if_neg (fun hc => hc he),
      hierParentOf_eq n j hj1 hj2]
    rfl
  · rintro rfl
    decide

/-- C5 witness: the concrete hierarchy with four agents. -/
theorem claim_hierarchical_topology_witness :
    ∃ g, build "hierarchical" ((4 : Nat) : Int) = .ok g ∧
      g.nodes = agentNames 4 ∧
      g.fixedEdges = [(STARTM, agentName 1)] ∧
      (∀ i, 1 ≤ i → i < 4 →
        hierParentOf 4 (agentName (i + 1)) = some (agentName ((i - 1) / 2 + 1))) ∧
      hierParentOf 4 (agentName 1) = none ∧
      (∀ j, j < 4 → hierChildrenSpec 4 j ≠ [] →
        dynLookup g (agentName (j + 1)) = some (hierChildrenSpec 4 j ++ [ENDM])) ∧
      (∀ j, 1 ≤ j → j < 4 → hierChildrenSpec 4 j = [] →
        dynLookup g (agentName (j + 1)) = some [agentName ((j - 1) / 2 + 1), ENDM]) ∧
      (4 = 1 → dynLookup g (agentName 1) = some [ENDM]) :=
  claim_hierarchical_topology 4 (by decide)

/-- C6: every successfully built graph has exactly `n_agents` nodes, and the
node identifiers are pairwise distinct. -/
theorem claim_node_count_nodup (kind : String) (n : Int) (g : Graph)
    (h : build kind n = .ok g) :
    (g.nodes.length : Int) = n ∧ g.nodes.Nodup := by
  obtain ⟨h1, hc⟩ := build_ok_cases kind n g h
  rcases hc with ⟨_, rfl⟩ | ⟨_, rfl⟩ | ⟨_, h2, rfl⟩ | ⟨_, rfl⟩
  · refine ⟨?_, agentNames_nodup n.toNat⟩
    have e : (buildPipeline n.toNat).nodes.length = n.toNat := agentNames_length n.toNat
    rw [e]
    omega
  · refine ⟨?_, agentNames_nodup n.toNat⟩
    have e : (buildNetwork n.toNat).nodes.length = n.toNat := agentNames_length n.toNat
    rw [e]
    omega
  · constructor
    · have e : (buildSupervisor n.toNat).nodes.length = (n.toNat - 1) + 1 := by
        simp [buildSupervisor]
      rw [e]
      omega
    · refine List.nodup_cons.mpr ⟨?_, (List.nodup_range' _ _).map agentName_injective⟩
      intro hmem
      obtain ⟨i, _, he⟩ := List.mem_map.mp hmem
      exact agentName_ne_supervisor i he
  · refine ⟨?_, agentNames_nodup n.toNat⟩
    have e : (buildHierarchical n.toNat).nodes.length = n.toNat := agentNames_length n.toNat
    rw [e]
    omega

/-- C6 witness: the pipeline with two agents has two distinct nodes. -/
theorem claim_node_count_nodup_witness :
    ((buildPipeline 2).nodes.length : Int) = 2 ∧ (buildPipeline 2).nodes.Nodup :=
  claim_node_count_nodup "pipeline" 2 (buildPipeline 2) (by decide)

/-- C7: in every successfully built graph, every node that declares a dynamic
possible-destination list has the end marker as one of its members. -/
theorem claim_end_always_candidate (kind : String) (n : Int) (g : Graph)
    (h : build kind n = .ok g) : ∀ p ∈ g.dyn, ENDM ∈ p.2 := by
  obtain ⟨h1, hc⟩ := build_ok_cases kind n g h
  rcases hc with ⟨_, rfl⟩ | ⟨_, rfl⟩ | ⟨_, h2, rfl⟩ | ⟨_, rfl⟩
  · intro p hp
    exact absurd hp (by simp [buildPipeline])
  · intro p hp
    obtain ⟨x, _, rfl⟩ := List.mem_map.mp hp
    exact endm_mem_dynamicStub _ _
  · intro p hp
    rcases List.mem_cons.mp hp with rfl | hp'
    · exact endm_mem_dynamicStub _ _
    · obtain ⟨x, _, rfl⟩ := List.mem_map.mp hp'
      exact endm_mem_dynamicStub _ _
  · intro p hp
    obtain ⟨x, _, rfl⟩ := List.mem_map.mp hp
    exact endm_mem_hierNodeStub _ _

/-- C7 witness: the sole node of the one-agent network can reach end. -/
theorem claim_end_always_candidate_witness :
    ENDM ∈ (("l1_agent", ["l1_agent", ENDM]) : String × List String).2 :=
  claim_end_always_candidate "network" 1 (buildNetwork 1) (by decide)
    ("l1_agent", ["l1_agent", ENDM]) (by decide)

/-- C8: in every successfully built graph, every node is reachable from the
start marker along fixed edges and declared dynamic destinations. -/
theorem claim_all_nodes_reachable (kind : String) (n : Int) (g : Graph)
    (h : build kind n = .ok g) : ∀ nm ∈ g.nodes, g.reachable nm := by
  obtain ⟨h1, hc⟩ := build_ok_cases kind n g h
  rcases hc with ⟨_, rfl⟩ | ⟨_, rfl⟩ | ⟨_, h2, rfl⟩ | ⟨_, rfl⟩
  · exact buildPipeline_reachable n.toNat (by omega)
  · exact buildNetwork_reachable n.toNat (by omega)
  · exact buildSupervisor_reachable n.toNat
  · exact buildHierarchical_reachable n.toNat (by omega)

/-- C8 witness: the sole node of the one-agent network is reachable. -/
theorem claim_all_nodes_reachable_witness : (buildNetwork 1).reachable (agentName 1) :=
  claim_all_nodes_reachable "network" 1 (buildNetwork 1) (by decide) (agentName 1) (by decide)

/-- C9: `build` is pure and deterministic; two calls with identical arguments
return identical graphs, with the same identifiers stably reused. -/
theorem claim_build_deterministic (k1 k2 : String) (n1 n2 : Int)
    (hk : k1 = k2) (hn : n1 = n2) : build k1 n1 = build k2 n2 := by
  rw [hk, hn]

/-- C9 witness: two identical pipeline calls agree. -/
theorem claim_build_deterministic_witness :
    build "pipeline" 3 = build "pipeline" 3 :=
  claim_build_deterministic "pipeline" "pipeline" 3 3 rfl rfl

/-- C10: for the network, supervisor and hierarchical kinds the built graph
has exactly one fixed edge, from the start marker to the entry node (the
first node: `l1`, `supervisor`, and the root respectively); all other
connectivity is declared only through dynamic destination lists. -/
theorem claim_single_fixed_edge (kind : String) (n : Int) (g : Graph)
    (h : build kind n = .ok g) (hk : strLower kind ≠ "pipeline") :
    g.fixedEdges = [(STARTM, g.nodes.headD "")] ∧
      g.nodes.headD "" =
        (if strLower kind = "supervisor" then "supervisor" else agentName 1) := by
  obtain ⟨h1, hc⟩ := build_ok_cases kind n g h
  rcases hc with ⟨hkk, rfl⟩ | ⟨hkk, rfl⟩ | ⟨hkk, h2, rfl⟩ | ⟨hkk, rfl⟩
  · exact absurd hkk hk
  · refine ⟨rfl, ?_⟩
    rw [if_neg (by rw [hkk]; decide)]
    exact agentNames_headD n.toNat (by omega)
  · refine ⟨rfl, ?_⟩
    rw [if_pos hkk]
    rfl
  · refine ⟨rfl, ?_⟩
    rw [if_neg (by rw [hkk]; decide)]
    exact agentNames_headD n.toNat (by omega)

/-- C10 witness: the one-agent network has the single entry edge. -/
theorem claim_single_fixed_edge_witness :
    (buildNetwork 1).fixedEdges = [(STARTM, (buildNetwork 1).nodes.headD "")] ∧
      (buildNetwork 1).nodes.headD "" =
        (if strLower "network" = "supervisor" then "supervisor" else agentName 1) :=
  claim_single_fixed_edge "network" 1 (buildNetwork 1) (by decide) (by decide)

end MAA
